import Mathlib

/-!
Shallow embedding of the streaming-chat reconciliation engine of the
twiGPT chatbot frontend.

The definitions below are translated from the JavaScript source:
  * `ChatContext.jsx` (parallel-mode revision): `sendMessage` (single and
    dual mode placeholder creation, chunk application, finalization and
    error handling) and `selectResponse` (the parallel-pair merge loop);
  * `api.js` `ApiService.sendMessage`: the per-fragment stream decoder
    (fragment decode, newline split, marker check, JSON parse, dispatch
    on `error` / `done` / `content` with early return on a terminal
    record).

React state updates issued inside one synchronous handler are batched,
so each reconciler callback is modelled as one atomic state transition.
`Date.now()` is modelled by an explicit `now : Nat` parameter; JSON
parsing (`JSON.parse`) is modelled by a concrete parser for the record
shapes of the wire protocol (flat objects with string and boolean
fields, no escape sequences and no insignificant whitespace).
-/

namespace TwiGPT

/-- Message role: the source stores the strings `user` / `assistant`. -/
inductive Role where
  | user
  | assistant
deriving DecidableEq

/-- A message record as built by `ChatContext.jsx`.  Fields absent on a
JavaScript object (`isStreaming`, `error`, `model`, `parallel` on a user
message) are undefined there, hence falsy; they are modelled by the
defaults below. -/
structure Msg where
  id : String
  role : Role
  content : String
  timestamp : Nat
  isStreaming : Bool := false
  error : Bool := false
  model : Option String := none
  parallel : Bool := false
deriving DecidableEq

/-- Protocol events delivered by the stream decoder to the reconciler
callbacks: `content` chunks (the model index is present only in dual
mode), a `complete` record optionally carrying a server message id, and
an `error` record. -/
inductive Ev where
  | content (text : String) (modelIndex : Option Nat)
  | complete (messageId : Option String)
  | err (message : String)
deriving DecidableEq

/-- The session controller state held by `ChatProvider`: the ordered
message list, the global streaming flag, conversation presence, the
conversation model name, the second model and the parallel-mode flag. -/
structure ChatState where
  messages : List Msg
  isStreaming : Bool
  hasConv : Bool
  modelName : String
  secondModel : String
  parallelMode : Bool
deriving DecidableEq

/-- `temp-${Date.now()}` -/
def userMsgId (now : Nat) : String := "temp-" ++ toString now

/-- `temp-assistant-${Date.now()}` -/
def singleAsstId (now : Nat) : String := "temp-assistant-" ++ toString now

/-- `temp-assistant-1-${Date.now()}` -/
def dualAsstId1 (now : Nat) : String := "temp-assistant-1-" ++ toString now

/-- `temp-assistant-2-${Date.now()}` -/
def dualAsstId2 (now : Nat) : String := "temp-assistant-2-" ++ toString now

/-- `final-${Date.now()}` -/
def finalId (now : Nat) : String := "final-" ++ toString now

/-- The user message appended by `sendMessage`. -/
def mkUserMsg (text : String) (now : Nat) : Msg :=
  { id := userMsgId now, role := Role.user, content := text, timestamp := now }

/-- The single-mode assistant placeholder (empty content, streaming). -/
def mkSinglePlaceholder (now : Nat) : Msg :=
  { id := singleAsstId now, role := Role.assistant, content := ""
    timestamp := now, isStreaming := true }

/-- The first dual-mode placeholder (conversation model, parallel). -/
def mkDualPlaceholder1 (modelName : String) (now : Nat) : Msg :=
  { id := dualAsstId1 now, role := Role.assistant, content := ""
    timestamp := now, isStreaming := true, model := some modelName
    parallel := true }

/-- The second dual-mode placeholder (second model, parallel). -/
def mkDualPlaceholder2 (secondModel : String) (now : Nat) : Msg :=
  { id := dualAsstId2 now, role := Role.assistant, content := ""
    timestamp := now, isStreaming := true, model := some secondModel
    parallel := true }

/-- `onChunk`: append the chunk to the message whose id matches. -/
def appendChunk (targetId : String) (chunk : String) (msgs : List Msg) : List Msg :=
  msgs.map fun m => if m.id = targetId then { m with content := m.content ++ chunk } else m

/-- JavaScript `data.message_id || msg.id`: the empty string is falsy. -/
def jsOr (messageId : Option String) (dflt : String) : String :=
  match messageId with
  | some s => if s = "" then dflt else s
  | none => dflt

/-- Single-mode `onComplete`: stop streaming and rebind the identifier
to the server id when one is present. -/
def finalizeSingle (targetId : String) (messageId : Option String) (msgs : List Msg) : List Msg :=
  msgs.map fun m =>
    if m.id = targetId then { m with isStreaming := false, id := jsOr messageId m.id } else m

/-- Single-mode `onError`: error text as content, stop streaming, flag
the error. -/
def failSingle (targetId : String) (e : String) (msgs : List Msg) : List Msg :=
  msgs.map fun m =>
    if m.id = targetId then
      { m with content := "Error: " ++ e, isStreaming := false, error := true }
    else m

/-- Dual-mode `onComplete`: both placeholders stop streaming. -/
def finalizeDual (id1 id2 : String) (msgs : List Msg) : List Msg :=
  msgs.map fun m =>
    if m.id = id1 ∨ m.id = id2 then { m with isStreaming := false } else m

/-- Dual-mode `onError`: both placeholders are put into error state. -/
def failDual (id1 id2 : String) (e : String) (msgs : List Msg) : List Msg :=
  msgs.map fun m =>
    if m.id = id1 ∨ m.id = id2 then
      { m with content := "Error: " ++ e, isStreaming := false, error := true }
    else m

/-- `modelIndex === 0 ? assistantMessageId1 : assistantMessageId2`. -/
def dualTarget (id1 id2 : String) (modelIndex : Option Nat) : String :=
  match modelIndex with
  | some 0 => id1
  | _ => id2

/-- One single-mode reconciler transition (the three callbacks of the
single-mode branch of `sendMessage`). -/
def stepSingle (aid : String) (st : ChatState) (ev : Ev) : ChatState :=
  match ev with
  | Ev.content t _ => { st with messages := appendChunk aid t st.messages }
  | Ev.complete mid =>
    { st with messages := finalizeSingle aid mid st.messages, isStreaming := false }
  | Ev.err e =>
    { st with messages := failSingle aid e st.messages, isStreaming := false }

/-- One dual-mode reconciler transition (the three callbacks of the
parallel branch of `sendMessage`). -/
def stepDual (id1 id2 : String) (st : ChatState) (ev : Ev) : ChatState :=
  match ev with
  | Ev.content t idx =>
    { st with messages := appendChunk (dualTarget id1 id2 idx) t st.messages }
  | Ev.complete _ =>
    { st with messages := finalizeDual id1 id2 st.messages, isStreaming := false }
  | Ev.err e =>
    { st with messages := failDual id1 id2 e st.messages, isStreaming := false }

/-- Single-mode submission: append the user message and the streaming
placeholder and raise the streaming flag (one batched React update). -/
def submitSingle (st : ChatState) (text : String) (now : Nat) : ChatState :=
  { st with
    messages := st.messages ++ [mkUserMsg text now, mkSinglePlaceholder now]
    isStreaming := true }

/-- Dual-mode submission: append the user message and both parallel
placeholders and raise the streaming flag. -/
def submitDual (st : ChatState) (text : String) (now : Nat) : ChatState :=
  { st with
    messages := st.messages ++
      [mkUserMsg text now, mkDualPlaceholder1 st.modelName now,
        mkDualPlaceholder2 st.secondModel now]
    isStreaming := true }

/-- `sendMessage` of `ChatContext.jsx`, with the delivered event list
made explicit.  Returns the final state and whether a request was
opened; the guard `if (!currentConversation || isStreaming) return`
rejects the submission as a no-op. -/
def sendMessageR (st : ChatState) (text : String) (now : Nat) (evs : List Ev) :
    ChatState × Bool :=
  if !st.hasConv || st.isStreaming then (st, false)
  else if st.parallelMode then
    (evs.foldl (stepDual (dualAsstId1 now) (dualAsstId2 now)) (submitDual st text now), true)
  else
    (evs.foldl (stepSingle (singleAsstId now)) (submitSingle st text now), true)

/-- The state reached by `sendMessage`. -/
def sendMessage (st : ChatState) (text : String) (now : Nat) (evs : List Ev) : ChatState :=
  (sendMessageR st text now evs).1

/-- The successive states produced by a step function, including the
start state. -/
def statesFrom (step : ChatState → Ev → ChatState) : ChatState → List Ev → List ChatState
  | s, [] => [s]
  | s, e :: evs => s :: statesFrom step (step s e) evs

/-- The state after every transition of one turn: the state right after
submission, then the state after each delivered event.  Empty when the
submission is rejected by the guard. -/
def sendTrace (st : ChatState) (text : String) (now : Nat) (evs : List Ev) :
    List ChatState :=
  if !st.hasConv || st.isStreaming then []
  else if st.parallelMode then
    statesFrom (stepDual (dualAsstId1 now) (dualAsstId2 now)) (submitDual st text now) evs
  else
    statesFrom (stepSingle (singleAsstId now)) (submitSingle st text now) evs

/-- Does some assistant message have `streaming = true`? -/
def anyAsstStreaming (msgs : List Msg) : Bool :=
  msgs.any fun m => m.isStreaming && decide (m.role = Role.assistant)

/-- The StreamingFlag invariant: the flag is true iff at least one
assistant message is streaming. -/
def streamInv (s : ChatState) : Prop :=
  s.isStreaming = anyAsstStreaming s.messages

/-- Only the given ids (the active turn's placeholders) may belong to
streaming messages. -/
def onlyStreamIds (ids : List String) (msgs : List Msg) : Prop :=
  ∀ m ∈ msgs, m.isStreaming = true → m.id ∈ ids

instance (s : ChatState) : Decidable (streamInv s) := by
  unfold streamInv; infer_instance

/-- The body of the `setMessages` loop of `selectResponse`: scan the
list; at the first pair of adjacent parallel assistant messages push
the final message and skip both (`skipNext`); keep everything else. -/
def replaceParallelLoop (finalMsg : Msg) : List Msg → List Msg
  | [] => []
  | [m] => [m]
  | m :: next :: rest =>
    if m.parallel = true ∧ m.role = Role.assistant then
      if next.parallel = true ∧ next.role = Role.assistant then
        finalMsg :: replaceParallelLoop finalMsg rest
      else
        m :: replaceParallelLoop finalMsg (next :: rest)
    else
      m :: replaceParallelLoop finalMsg (next :: rest)

/-- `{ ...selectedMessage, parallel: false, isStreaming: false, id:
final-${Date.now()} }`. -/
def mkFinalMsg (selected : Msg) (now : Nat) : Msg :=
  { selected with parallel := false, isStreaming := false, id := finalId now }

/-- `selectResponse` of `ChatContext.jsx`: the remote persistence call
is awaited inside the `try`; only when it succeeds does the local merge
run, a rejection lands in the `catch` which merely logs. -/
def selectResponseModel (remoteOk : Bool) (selected : Msg) (now : Nat)
    (st : ChatState) : ChatState :=
  if remoteOk then
    { st with messages := replaceParallelLoop (mkFinalMsg selected now) st.messages }
  else st

/-- A selection attempt through the UI: the Choose button of
`ParallelMessage.jsx` is disabled while either side is streaming, so
`handleSelect` (which forwards the chosen message to `selectResponse`)
only runs when neither is.  The parent wiring of `onSelect` to
`selectResponse` is not under the provided sources; modelled from the
spec: `select(turn, side)` delegates to the dual-stream reconciler. -/
def attemptSelect (m1 m2 : Msg) (chooseFirst : Bool) (remoteOk : Bool) (now : Nat)
    (st : ChatState) : ChatState :=
  if m1.isStreaming || m2.isStreaming then st
  else selectResponseModel remoteOk (if chooseFirst then m1 else m2) now st

/-- Left fold of string concatenation: the concatenation
`c1 ++ c2 ++ ... ++ cn` of the chunks in arrival order. -/
def concatAll (cs : List String) : String :=
  cs.foldl (fun a b => a ++ b) ""

/-! ## Stream decoder (`ApiService.sendMessage` of `api.js`)

The decoder works on the character lists of the decoded transport
fragments.  `JSON.parse` is modelled by a parser for the flat record
objects of the wire protocol: string and boolean members, no escape
sequences, no insignificant whitespace, and the whole input must be
consumed. -/

/-- A JSON value of the wire protocol (strings and booleans). -/
inductive JVal where
  | jstr (s : List Char)
  | jbool (b : Bool)
deriving DecidableEq

/-- Scan the body of a JSON string literal up to its closing quote.
Escape sequences are outside the modelled protocol and rejected. -/
def scanStr : List Char → Option (List Char × List Char)
  | [] => none
  | c :: rest =>
    if c = '"' then some ([], rest)
    else if c = '\\' then none
    else (scanStr rest).map fun p => (c :: p.1, p.2)

/-- Parse a JSON string literal (opening quote, body, closing quote). -/
def parseStringLit : List Char → Option (List Char × List Char)
  | '"' :: rest => scanStr rest
  | _ => none

/-- Parse a JSON value: a string literal or a boolean. -/
def parseVal : List Char → Option (JVal × List Char)
  | '"' :: rest => (scanStr rest).map fun p => (JVal.jstr p.1, p.2)
  | 't' :: 'r' :: 'u' :: 'e' :: rest => some (JVal.jbool true, rest)
  | 'f' :: 'a' :: 'l' :: 's' :: 'e' :: rest => some (JVal.jbool false, rest)
  | _ => none

/-- Parse the members of a JSON object after the opening brace: a
`"key":value` list separated by commas and closed by a brace.  The
fuel argument only bounds the recursion. -/
def parsePairs : Nat → List Char → Option (List (List Char × JVal) × List Char)
  | 0, _ => none
  | fuel + 1, cs =>
    match parseStringLit cs with
    | none => none
    | some (key, r1) =>
      match r1 with
      | ':' :: r2 =>
        match parseVal r2 with
        | none => none
        | some (v, r3) =>
          match r3 with
          | ',' :: r4 => (parsePairs fuel r4).map fun p => ((key, v) :: p.1, p.2)
          | '}' :: r4 => some ([(key, v)], r4)
          | _ => none
      | _ => none

/-- A parsed protocol record: the fields of the payload object read by
the decoder (`content`, `done`, `message_id`, `error`). -/
structure Payload where
  content : Option (List Char) := none
  done : Bool := false
  message_id : Option (List Char) := none
  error : Option (List Char) := none
deriving DecidableEq

/-- Last-wins member lookup, as `JSON.parse` builds objects. -/
def lookupJ : List (List Char × JVal) → List Char → Option JVal
  | [], _ => none
  | (k, v) :: rest, key =>
    match lookupJ rest key with
    | some v2 => some v2
    | none => if k = key then some v else none

/-- Read a member as a string. -/
def strOf : Option JVal → Option (List Char)
  | some (JVal.jstr s) => some s
  | _ => none

/-- JavaScript truthiness of the `done` member. -/
def boolTruthy : Option JVal → Bool
  | some (JVal.jbool b) => b
  | some (JVal.jstr s) => !s.isEmpty
  | none => false

def contentKey : List Char := ['c', 'o', 'n', 't', 'e', 'n', 't']
def doneKey : List Char := ['d', 'o', 'n', 'e']
def messageIdKey : List Char := ['m', 'e', 's', 's', 'a', 'g', 'e', '_', 'i', 'd']
def errorKey : List Char := ['e', 'r', 'r', 'o', 'r']

/-- Assemble the payload record from the parsed members. -/
def payloadOfPairs (pairs : List (List Char × JVal)) : Payload :=
  { content := strOf (lookupJ pairs contentKey)
    done := boolTruthy (lookupJ pairs doneKey)
    message_id := strOf (lookupJ pairs messageIdKey)
    error := strOf (lookupJ pairs errorKey) }

/-- `JSON.parse` on one record body: a flat object consumed in full. -/
def parsePayload (cs : List Char) : Option Payload :=
  match cs with
  | '{' :: '}' :: rest => if rest.isEmpty then some {} else none
  | '{' :: rest =>
    match parsePairs (rest.length + 1) rest with
    | some (pairs, r) => if r.isEmpty then some (payloadOfPairs pairs) else none
    | none => none
  | _ => none

/-- The `data: ` marker. -/
def dataMarker : List Char := ['d', 'a', 't', 'a', ':', ' ']

/-- `line.startsWith('data: ')`. -/
def startsWithData (cs : List Char) : Bool :=
  dataMarker.isPrefixOf cs

/-- Process one line: require the marker, then parse the rest as JSON;
a line that fails either check yields no record (dropped silently). -/
def parseLine (cs : List Char) : Option Payload :=
  if startsWithData cs then parsePayload (cs.drop 6) else none

/-- `chunk.split('\n')` on one decoded fragment. -/
def splitLinesCh : List Char → List (List Char)
  | [] => [[]]
  | c :: rest =>
    let r := splitLinesCh rest
    if c = '\n' then [] :: r
    else
      match r with
      | [] => [[c]]
      | l :: ls => (c :: l) :: ls

/-- The records parsed from one fragment, each fragment decoded and
split independently of the others. -/
def recordsOfFragment (frag : List Char) : List Payload :=
  (splitLinesCh frag).filterMap parseLine

/-- A terminal outcome of the read loop. -/
inductive Term where
  | complete (message_id : Option (List Char))
  | err (message : List Char)
deriving DecidableEq

/-- JavaScript truthiness of an optional string field. -/
def truthyStr : Option (List Char) → Option (List Char)
  | some s => if s.isEmpty then none else some s
  | none => none

/-- Dispatch the parsed records in order: an `error` record ends the
stream with an error, a `done` record ends it successfully, a truthy
`content` member emits a chunk; everything after the first terminal
record is never read (the loop returns). -/
def consume : List Payload → List (List Char) × Option Term
  | [] => ([], none)
  | p :: rest =>
    match truthyStr p.error with
    | some e => ([], some (Term.err e))
    | none =>
      if p.done then ([], some (Term.complete p.message_id))
      else
        match truthyStr p.content with
        | some c =>
          let r := consume rest
          (c :: r.1, r.2)
        | none => consume rest

/-- The chunk sequence and terminal outcome produced by the read loop
on a fragment sequence (a transport close with no terminal record ends
the loop with no callback: the terminal component is `none`). -/
def eventsOfFragments (frags : List (List Char)) : List (List Char) × Option Term :=
  consume (frags.flatMap recordsOfFragment)

/-- The reconciler events corresponding to a terminal outcome. -/
def evOfTerm : Option Term → List Ev
  | none => []
  | some (Term.complete mid) => [Ev.complete (mid.map fun s => String.mk s)]
  | some (Term.err e) => [Ev.err (String.mk e)]

/-- The event list a fragment sequence delivers to the single-mode
reconciler callbacks. -/
def wireEvents (frags : List (List Char)) : List Ev :=
  ((eventsOfFragments frags).1.map fun c => Ev.content (String.mk c) none) ++
    evOfTerm (eventsOfFragments frags).2

/-- `sendMessage` driven end to end from the wire fragments. -/
def sendMessageWire (st : ChatState) (text : String) (now : Nat)
    (frags : List (List Char)) : ChatState :=
  sendMessage st text now (wireEvents frags)

/-- The opening part of a serialized content record body. -/
def jsonOpen : List Char :=
  ['{', '"', 'c', 'o', 'n', 't', 'e', 'n', 't', '"', ':', '"']

/-- The closing part of a serialized content record body. -/
def jsonClose : List Char := ['"', '}']

/-- The serialized body of a content record. -/
def contentJson (s : List Char) : List Char :=
  jsonOpen ++ (s ++ jsonClose)

/-- One full `data: `-prefixed content record line. -/
def contentRecordLine (s : List Char) : List Char :=
  dataMarker ++ contentJson s

/-- Content text of an ordinary record: no quote, no backslash, no
newline, no colon. -/
def goodContent (s : List Char) : Prop :=
  ∀ c ∈ s, c ≠ '"' ∧ c ≠ '\\' ∧ c ≠ '\n' ∧ c ≠ ':'

instance (s : List Char) : Decidable (goodContent s) := by
  unfold goodContent; infer_instance

/-! ## Helper lemmas -/

/-- A pointwise-trivial map is the identity. -/
theorem map_noop (f : Msg → Msg) (ms : List Msg) (h : ∀ m ∈ ms, f m = m) :
    ms.map f = ms := by
  induction ms with
  | nil => rfl
  | cons m rest ih =>
    simp only [List.map_cons, h m (List.mem_cons_self m rest)]
    rw [ih fun x hx => h x (List.mem_cons_of_mem m hx)]

theorem appendChunk_append (aid t : String) (xs ys : List Msg) :
    appendChunk aid t (xs ++ ys) = appendChunk aid t xs ++ appendChunk aid t ys := by
  simp [appendChunk]

theorem appendChunk_fresh (aid t : String) (ms : List Msg)
    (h : ∀ m ∈ ms, m.id ≠ aid) : appendChunk aid t ms = ms := by
  apply map_noop
  intro m hm
  exact if_neg (h m hm)

theorem string_append_right_cancel {a b t : String} (h : a ++ t = b ++ t) : a = b := by
  have hd := congrArg String.data h
  rw [String.data_append, String.data_append] at hd
  have h2 := List.append_cancel_right hd
  cases a; cases b
  exact congrArg String.mk h2

theorem userId_ne_singleAsstId (now : Nat) : userMsgId now ≠ singleAsstId now := by
  intro h
  exact absurd (string_append_right_cancel h) (by decide)

theorem userId_ne_dualAsstId1 (now : Nat) : userMsgId now ≠ dualAsstId1 now := by
  intro h
  exact absurd (string_append_right_cancel h) (by decide)

theorem userId_ne_dualAsstId2 (now : Nat) : userMsgId now ≠ dualAsstId2 now := by
  intro h
  exact absurd (string_append_right_cancel h) (by decide)

theorem dualAsstId1_ne_dualAsstId2 (now : Nat) : dualAsstId1 now ≠ dualAsstId2 now := by
  intro h
  exact absurd (string_append_right_cancel h) (by decide)

/-- A fold of single-mode reconciler steps over content events only
rewrites the message list, chunk by chunk. -/
theorem foldl_stepSingle_content (aid : String) (cs : List String) :
    ∀ st : ChatState,
      (cs.map fun c => Ev.content c none).foldl (stepSingle aid) st =
        { st with messages := cs.foldl (fun ms c => appendChunk aid c ms) st.messages } := by
  induction cs with
  | nil => intro st; rfl
  | cons c rest ih => intro st; exact ih _

/-- Folding chunk application over a list whose only message with the
target id is the trailing placeholder concatenates the chunks onto the
placeholder's content in order and leaves every other message alone. -/
theorem foldl_appendChunk_split (aid : String) (cs : List String) :
    ∀ (pre : List Msg) (ph : Msg), (∀ m ∈ pre, m.id ≠ aid) → ph.id = aid →
      cs.foldl (fun ms c => appendChunk aid c ms) (pre ++ [ph]) =
        pre ++ [{ ph with content := cs.foldl (fun a b => a ++ b) ph.content }] := by
  induction cs with
  | nil => intro pre ph _ _; rfl
  | cons c rest ih =>
    intro pre ph hpre hid
    have h1 : appendChunk aid c (pre ++ [ph]) =
        pre ++ [{ ph with content := ph.content ++ c }] := by
      rw [appendChunk_append, appendChunk_fresh aid c pre hpre]
      simp [appendChunk, hid]
    simp only [List.foldl_cons, h1]
    exact ih pre { ph with content := ph.content ++ c } hpre hid

/-- Chunk application on a list whose two placeholders sit between
fresh messages: a chunk for the first placeholder only touches it. -/
theorem appendChunk_pair1 (aid t : String) (pre post : List Msg) (p1 p2 : Msg)
    (hpre : ∀ m ∈ pre, m.id ≠ aid) (hpost : ∀ m ∈ post, m.id ≠ aid)
    (hp1 : p1.id = aid) (hp2 : p2.id ≠ aid) :
    appendChunk aid t (pre ++ p1 :: p2 :: post) =
      pre ++ { p1 with content := p1.content ++ t } :: p2 :: post := by
  have h : p1 :: p2 :: post = [p1, p2] ++ post := rfl
  rw [h, appendChunk_append, appendChunk_append, appendChunk_fresh _ _ pre hpre,
    appendChunk_fresh _ _ post hpost]
  simp [appendChunk, hp1, hp2]

/-- Chunk application for the second placeholder only touches it. -/
theorem appendChunk_pair2 (aid t : String) (pre post : List Msg) (p1 p2 : Msg)
    (hpre : ∀ m ∈ pre, m.id ≠ aid) (hpost : ∀ m ∈ post, m.id ≠ aid)
    (hp1 : p1.id ≠ aid) (hp2 : p2.id = aid) :
    appendChunk aid t (pre ++ p1 :: p2 :: post) =
      pre ++ p1 :: { p2 with content := p2.content ++ t } :: post := by
  have h : p1 :: p2 :: post = [p1, p2] ++ post := rfl
  rw [h, appendChunk_append, appendChunk_append, appendChunk_fresh _ _ pre hpre,
    appendChunk_fresh _ _ post hpost]
  simp [appendChunk, hp1, hp2]

/-- Dual finalization stops both placeholders and touches nothing else. -/
theorem finalizeDual_pair (id1 id2 : String) (pre post : List Msg) (p1 p2 : Msg)
    (hpre : ∀ m ∈ pre, m.id ≠ id1 ∧ m.id ≠ id2)
    (hpost : ∀ m ∈ post, m.id ≠ id1 ∧ m.id ≠ id2)
    (hp1 : p1.id = id1) (hp2 : p2.id = id2) :
    finalizeDual id1 id2 (pre ++ p1 :: p2 :: post) =
      pre ++ { p1 with isStreaming := false } :: { p2 with isStreaming := false } :: post := by
  have h : p1 :: p2 :: post = [p1, p2] ++ post := rfl
  unfold finalizeDual
  rw [h, List.map_append, List.map_append]
  rw [map_noop _ pre fun m hm => if_neg (by rcases hpre m hm with ⟨a, b⟩; tauto)]
  rw [map_noop _ post fun m hm => if_neg (by rcases hpost m hm with ⟨a, b⟩; tauto)]
  simp [hp1, hp2]

/-- The dual error handler puts both placeholders into error state and
touches nothing else. -/
theorem failDual_pair (id1 id2 e : String) (pre post : List Msg) (p1 p2 : Msg)
    (hpre : ∀ m ∈ pre, m.id ≠ id1 ∧ m.id ≠ id2)
    (hpost : ∀ m ∈ post, m.id ≠ id1 ∧ m.id ≠ id2)
    (hp1 : p1.id = id1) (hp2 : p2.id = id2) :
    failDual id1 id2 e (pre ++ p1 :: p2 :: post) =
      pre ++ { p1 with content := "Error: " ++ e, isStreaming := false, error := true } ::
        { p2 with content := "Error: " ++ e, isStreaming := false, error := true } :: post := by
  have h : p1 :: p2 :: post = [p1, p2] ++ post := rfl
  unfold failDual
  rw [h, List.map_append, List.map_append]
  rw [map_noop _ pre fun m hm => if_neg (by rcases hpre m hm with ⟨a, b⟩; tauto)]
  rw [map_noop _ post fun m hm => if_neg (by rcases hpost m hm with ⟨a, b⟩; tauto)]
  simp [hp1, hp2]

/-- The merge loop passes over messages that are not parallel
assistants. -/
theorem replaceParallelLoop_skip (fm : Msg) (pre rest : List Msg)
    (hpre : ∀ m ∈ pre, ¬(m.parallel = true ∧ m.role = Role.assistant)) :
    replaceParallelLoop fm (pre ++ rest) = pre ++ replaceParallelLoop fm rest := by
  induction pre with
  | nil => simp
  | cons m pre ih =>
    have hm := hpre m (List.mem_cons_self _ _)
    have hrest := fun x hx => hpre x (List.mem_cons_of_mem m hx)
    rw [List.cons_append]
    cases hL : pre ++ rest with
    | nil =>
      rcases List.append_eq_nil.mp hL with ⟨h1, h2⟩
      subst h1
      subst h2
      simp [replaceParallelLoop]
    | cons x xs =>
      simp only [replaceParallelLoop]
      rw [if_neg hm, ← hL, ih hrest, List.cons_append]

/-- The merge loop replaces an adjacent parallel assistant pair by the
final message and goes on after it. -/
theorem replaceParallelLoop_pair (fm p1 p2 : Msg) (rest : List Msg)
    (h1 : p1.parallel = true ∧ p1.role = Role.assistant)
    (h2 : p2.parallel = true ∧ p2.role = Role.assistant) :
    replaceParallelLoop fm (p1 :: p2 :: rest) = fm :: replaceParallelLoop fm rest := by
  simp only [replaceParallelLoop]
  rw [if_pos h1, if_pos h2]

/-- A list with no parallel assistant messages passes through the merge
loop unchanged. -/
theorem replaceParallelLoop_clean (fm : Msg) (post : List Msg)
    (hpost : ∀ m ∈ post, ¬(m.parallel = true ∧ m.role = Role.assistant)) :
    replaceParallelLoop fm post = post := by
  have h := replaceParallelLoop_skip fm post [] hpost
  simpa [replaceParallelLoop] using h

/-- Chunk application changes no streaming bit and no role, so the
streaming-assistant test is unchanged. -/
theorem anyAsstStreaming_appendChunk (aid t : String) (ms : List Msg) :
    anyAsstStreaming (appendChunk aid t ms) = anyAsstStreaming ms := by
  unfold anyAsstStreaming appendChunk
  induction ms with
  | nil => rfl
  | cons m rest ih =>
    simp only [List.map_cons, List.any_cons, ih]
    by_cases h : m.id = aid
    · simp [h]
    · simp [h]

theorem anyAsstStreaming_false_of (ms : List Msg)
    (h : ∀ m ∈ ms, m.isStreaming = false) : anyAsstStreaming ms = false := by
  unfold anyAsstStreaming
  rw [List.any_eq_false]
  intro m hm
  simp [h m hm]

theorem onlyStreamIds_appendChunk (ids : List String) (aid t : String) (ms : List Msg)
    (h : onlyStreamIds ids ms) : onlyStreamIds ids (appendChunk aid t ms) := by
  intro m2 hm2 hstream
  rcases List.mem_map.mp hm2 with ⟨m, hm, rfl⟩
  by_cases hid : m.id = aid
  · simp only [if_pos hid]
    simp only [if_pos hid] at hstream
    exact h m hm hstream
  · simp only [if_neg hid]
    simp only [if_neg hid] at hstream
    exact h m hm hstream

theorem finalizeSingle_noStream (aid : String) (mid : Option String) (ms : List Msg)
    (h : onlyStreamIds [aid] ms) :
    ∀ m2 ∈ finalizeSingle aid mid ms, m2.isStreaming = false := by
  intro m2 hm2
  rcases List.mem_map.mp hm2 with ⟨m, hm, rfl⟩
  by_cases hid : m.id = aid
  · simp [hid]
  · simp only [if_neg hid]
    cases hstr : m.isStreaming
    · rfl
    · exact absurd (List.mem_singleton.mp (h m hm hstr)) hid

theorem failSingle_noStream (aid e : String) (ms : List Msg)
    (h : onlyStreamIds [aid] ms) :
    ∀ m2 ∈ failSingle aid e ms, m2.isStreaming = false := by
  intro m2 hm2
  rcases List.mem_map.mp hm2 with ⟨m, hm, rfl⟩
  by_cases hid : m.id = aid
  · simp [hid]
  · simp only [if_neg hid]
    cases hstr : m.isStreaming
    · rfl
    · exact absurd (List.mem_singleton.mp (h m hm hstr)) hid

theorem finalizeDual_noStream (id1 id2 : String) (ms : List Msg)
    (h : onlyStreamIds [id1, id2] ms) :
    ∀ m2 ∈ finalizeDual id1 id2 ms, m2.isStreaming = false := by
  intro m2 hm2
  rcases List.mem_map.mp hm2 with ⟨m, hm, rfl⟩
  by_cases hid : m.id = id1 ∨ m.id = id2
  · simp [if_pos hid]
  · simp only [if_neg hid]
    cases hstr : m.isStreaming
    · rfl
    · have := h m hm hstr
      simp only [List.mem_cons, List.mem_singleton] at this
      exact absurd (by simpa using this) hid

theorem failDual_noStream (id1 id2 e : String) (ms : List Msg)
    (h : onlyStreamIds [id1, id2] ms) :
    ∀ m2 ∈ failDual id1 id2 e ms, m2.isStreaming = false := by
  intro m2 hm2
  rcases List.mem_map.mp hm2 with ⟨m, hm, rfl⟩
  by_cases hid : m.id = id1 ∨ m.id = id2
  · simp [if_pos hid]
  · simp only [if_neg hid]
    cases hstr : m.isStreaming
    · rfl
    · have := h m hm hstr
      simp only [List.mem_cons, List.mem_singleton] at this
      exact absurd (by simpa using this) hid

/-- Single-mode steps preserve the flag invariant together with the
placeholder-only streaming property. -/
theorem stepSingle_pres (aid : String) (s : ChatState) (e : Ev)
    (h : streamInv s ∧ onlyStreamIds [aid] s.messages) :
    streamInv (stepSingle aid s e) ∧ onlyStreamIds [aid] (stepSingle aid s e).messages := by
  rcases h with ⟨hinv, hids⟩
  cases e with
  | content t idx =>
    constructor
    · show s.isStreaming = anyAsstStreaming (appendChunk aid t s.messages)
      rw [anyAsstStreaming_appendChunk]
      exact hinv
    · exact onlyStreamIds_appendChunk _ _ _ _ hids
  | complete mid =>
    have hall := finalizeSingle_noStream aid mid s.messages hids
    constructor
    · show false = anyAsstStreaming (finalizeSingle aid mid s.messages)
      rw [anyAsstStreaming_false_of _ hall]
    · intro m hm hstr
      rw [hall m hm] at hstr
      cases hstr
  | err e2 =>
    have hall := failSingle_noStream aid e2 s.messages hids
    constructor
    · show false = anyAsstStreaming (failSingle aid e2 s.messages)
      rw [anyAsstStreaming_false_of _ hall]
    · intro m hm hstr
      rw [hall m hm] at hstr
      cases hstr

/-- Dual-mode steps preserve the flag invariant together with the
placeholder-only streaming property. -/
theorem stepDual_pres (id1 id2 : String) (s : ChatState) (e : Ev)
    (h : streamInv s ∧ onlyStreamIds [id1, id2] s.messages) :
    streamInv (stepDual id1 id2 s e) ∧
      onlyStreamIds [id1, id2] (stepDual id1 id2 s e).messages := by
  rcases h with ⟨hinv, hids⟩
  cases e with
  | content t idx =>
    constructor
    · show s.isStreaming = anyAsstStreaming (appendChunk (dualTarget id1 id2 idx) t s.messages)
      rw [anyAsstStreaming_appendChunk]
      exact hinv
    · exact onlyStreamIds_appendChunk _ _ _ _ hids
  | complete mid =>
    have hall := finalizeDual_noStream id1 id2 s.messages hids
    constructor
    · show false = anyAsstStreaming (finalizeDual id1 id2 s.messages)
      rw [anyAsstStreaming_false_of _ hall]
    · intro m hm hstr
      rw [hall m hm] at hstr
      cases hstr
  | err e2 =>
    have hall := failDual_noStream id1 id2 e2 s.messages hids
    constructor
    · show false = anyAsstStreaming (failDual id1 id2 e2 s.messages)
      rw [anyAsstStreaming_false_of _ hall]
    · intro m hm hstr
      rw [hall m hm] at hstr
      cases hstr

/-- An invariant preserved by the step function holds at every state of
the trace. -/
theorem statesFrom_inv (P : ChatState → Prop) (step : ChatState → Ev → ChatState)
    (hstep : ∀ s e, P s → P (step s e)) :
    ∀ (evs : List Ev) (s : ChatState), P s → ∀ t ∈ statesFrom step s evs, P t := by
  intro evs
  induction evs with
  | nil =>
    intro s hP t ht
    simp only [statesFrom, List.mem_singleton] at ht
    rw [ht]
    exact hP
  | cons e evs ih =>
    intro s hP t ht
    simp only [statesFrom, List.mem_cons] at ht
    rcases ht with ht | ht
    · rw [ht]; exact hP
    · exact ih (step s e) (hstep s e hP) t ht

/-- Every output of the merge loop is an input message or the final
message. -/
theorem replaceParallelLoop_mem (fm : Msg) :
    ∀ (ms : List Msg) (m : Msg), m ∈ replaceParallelLoop fm ms → m ∈ ms ∨ m = fm
  | [], m, h => by simp [replaceParallelLoop] at h
  | [x], m, h => by
    simp [replaceParallelLoop] at h
    simp [h]
  | x :: next :: rest, m, h => by
    simp only [replaceParallelLoop] at h
    by_cases h1 : x.parallel = true ∧ x.role = Role.assistant
    · rw [if_pos h1] at h
      by_cases h2 : next.parallel = true ∧ next.role = Role.assistant
      · rw [if_pos h2] at h
        rcases List.mem_cons.mp h with h | h
        · right; exact h
        · rcases replaceParallelLoop_mem fm rest m h with h | h
          · left; simp [h]
          · right; exact h
      · rw [if_neg h2] at h
        rcases List.mem_cons.mp h with h | h
        · left; simp [h]
        · rcases replaceParallelLoop_mem fm (next :: rest) m h with h | h
          · left
            rcases List.mem_cons.mp h with h | h
            · simp [h]
            · simp [h]
          · right; exact h
    · rw [if_neg h1] at h
      rcases List.mem_cons.mp h with h | h
      · left; simp [h]
      · rcases replaceParallelLoop_mem fm (next :: rest) m h with h | h
        · left
          rcases List.mem_cons.mp h with h | h
          · simp [h]
          · simp [h]
        · right; exact h

/-- Single-mode submission establishes the invariant pair. -/
theorem submitSingle_estab (st : ChatState) (text : String) (now : Nat)
    (hidle : ∀ m ∈ st.messages, m.isStreaming = false) :
    streamInv (submitSingle st text now) ∧
      onlyStreamIds [singleAsstId now] (submitSingle st text now).messages := by
  constructor
  · show true = anyAsstStreaming (st.messages ++ [mkUserMsg text now, mkSinglePlaceholder now])
    unfold anyAsstStreaming
    rw [List.any_append]
    simp [mkUserMsg, mkSinglePlaceholder]
  · intro m hm hstr
    rcases List.mem_append.mp hm with h | h
    · rw [hidle m h] at hstr
      cases hstr
    · rcases List.mem_cons.mp h with h | h
      · rw [h] at hstr
        simp [mkUserMsg] at hstr
      · rw [List.mem_singleton.mp h]
        simp [mkSinglePlaceholder]

/-- Dual-mode submission establishes the invariant pair. -/
theorem submitDual_estab (st : ChatState) (text : String) (now : Nat)
    (hidle : ∀ m ∈ st.messages, m.isStreaming = false) :
    streamInv (submitDual st text now) ∧
      onlyStreamIds [dualAsstId1 now, dualAsstId2 now] (submitDual st text now).messages := by
  constructor
  · show true = anyAsstStreaming (st.messages ++
      [mkUserMsg text now, mkDualPlaceholder1 st.modelName now,
        mkDualPlaceholder2 st.secondModel now])
    unfold anyAsstStreaming
    rw [List.any_append]
    simp [mkUserMsg, mkDualPlaceholder1, mkDualPlaceholder2]
  · intro m hm hstr
    rcases List.mem_append.mp hm with h | h
    · rw [hidle m h] at hstr
      cases hstr
    · rcases List.mem_cons.mp h with h | h
      · rw [h] at hstr
        simp [mkUserMsg] at hstr
      · rcases List.mem_cons.mp h with h | h
        · rw [h]
          simp [mkDualPlaceholder1]
        · rw [List.mem_singleton.mp h]
          simp [mkDualPlaceholder2]

/-- Scanning a quote-free, escape-free body finds the closing quote. -/
theorem scanStr_clean (u r : List Char) (h : ∀ c ∈ u, c ≠ '"' ∧ c ≠ '\\') :
    scanStr (u ++ '"' :: r) = some (u, r) := by
  induction u with
  | nil => simp [scanStr]
  | cons c u ih =>
    have hc := h c (List.mem_cons_self _ _)
    rw [List.cons_append]
    simp only [scanStr, if_neg hc.1, if_neg hc.2]
    rw [ih fun x hx => h x (List.mem_cons_of_mem _ hx)]
    rfl

/-- Scanning a quote-free fragment runs off the end and fails. -/
theorem scanStr_none (u : List Char) (h : ∀ c ∈ u, c ≠ '"') :
    scanStr u = none := by
  induction u with
  | nil => rfl
  | cons c u ih =>
    have hc := h c (List.mem_cons_self _ _)
    simp only [scanStr, if_neg hc]
    by_cases hb : c = '\\'
    · rw [if_pos hb]
    · rw [if_neg hb, ih fun x hx => h x (List.mem_cons_of_mem _ hx)]
      rfl

/-- A fragment without newline is a single line. -/
theorem splitLinesCh_noNl (cs : List Char) (h : '\n' ∉ cs) :
    splitLinesCh cs = [cs] := by
  induction cs with
  | nil => rfl
  | cons c rest ih =>
    have hc : ¬(c = '\n') := fun hh => h (hh ▸ List.mem_cons_self c rest)
    simp only [splitLinesCh]
    rw [ih fun hm => h (List.mem_cons_of_mem c hm), if_neg hc]

/-- A newline-free fragment followed by one newline splits into the
fragment and an empty trailing line. -/
theorem splitLinesCh_append_nl (xs : List Char) (h : '\n' ∉ xs) :
    splitLinesCh (xs ++ ['\n']) = [xs, []] := by
  induction xs with
  | nil => rfl
  | cons c rest ih =>
    have hc : ¬(c = '\n') := fun hh => h (hh ▸ List.mem_cons_self c rest)
    rw [List.cons_append]
    simp only [splitLinesCh]
    rw [ih fun hm => h (List.mem_cons_of_mem c hm), if_neg hc]

/-- The marker check accepts any line that begins with the marker. -/
theorem startsWithData_marker (t : List Char) :
    startsWithData (dataMarker ++ t) = true := by
  simp [startsWithData, dataMarker, List.isPrefixOf]

/-- A successful marker check means the marker characters are in the
line. -/
theorem subset_of_isPrefixOf :
    ∀ (l1 l2 : List Char), l1.isPrefixOf l2 = true → ∀ c ∈ l1, c ∈ l2
  | [], _, _, c, hc => absurd hc (List.not_mem_nil c)
  | a :: as, [], h, c, hc => by simp [List.isPrefixOf] at h
  | a :: as, b :: bs, h, c, hc => by
    simp only [List.isPrefixOf, Bool.and_eq_true, beq_iff_eq] at h
    rcases List.mem_cons.mp hc with hc | hc
    · rw [hc, ← h.1]
      exact List.mem_cons_self _ _
    · exact List.mem_cons_of_mem _ (subset_of_isPrefixOf as bs h.2 c hc)

/-- A colon-free line can not begin with the marker. -/
theorem startsWithData_no_colon (l : List Char) (h : ':' ∉ l) :
    startsWithData l = false := by
  cases hb : startsWithData l
  · rfl
  · exact absurd (subset_of_isPrefixOf dataMarker l hb ':' (by decide)) h

/-- No newline occurs in a well-formed content record line. -/
theorem noNl_contentRecordLine (s : List Char) (hgood : goodContent s) :
    '\n' ∉ contentRecordLine s := by
  intro h
  unfold contentRecordLine contentJson at h
  rcases List.mem_append.mp h with h | h
  · exact absurd h (by decide)
  · rcases List.mem_append.mp h with h | h
    · exact absurd h (by decide)
    · rcases List.mem_append.mp h with h | h
      · exact (hgood _ h).2.2.1 rfl
      · exact absurd h (by decide)

/-- The length of a content record line. -/
theorem contentRecordLine_length (s : List Char) :
    (contentRecordLine s).length = s.length + 20 := by
  simp [contentRecordLine, contentJson, dataMarker, jsonOpen, jsonClose]

/-- If the scan of the tail fails, the whole record body fails to
parse. -/
theorem parsePayload_open_scan_none (u : List Char) (hscan : scanStr u = none) :
    parsePayload (jsonOpen ++ u) = none := by
  simp [jsonOpen, parsePayload, parsePairs, parseStringLit, parseVal, scanStr, hscan]

/-- A record body whose content string closes at the very end of the
input (no closing brace follows) fails to parse. -/
theorem parsePayload_open_noclose (v : List Char) (h : ∀ c ∈ v, c ≠ '"' ∧ c ≠ '\\') :
    parsePayload (jsonOpen ++ (v ++ ['"'])) = none := by
  have hscan : scanStr (v ++ ['"']) = some (v, []) := scanStr_clean v [] h
  simp [jsonOpen, parsePayload, parsePairs, parseStringLit, parseVal, scanStr, hscan]

/-- Every proper front part of a serialized content record body fails
to parse: the decoder model of `JSON.parse` accepts no truncation of a
record. -/
theorem parsePayload_take_none (s : List Char) (hgood : goodContent s) (m : Nat)
    (hm : m < s.length + 14) :
    parsePayload ((contentJson s).take m) = none := by
  unfold contentJson
  by_cases h12 : m ≤ 12
  · rw [List.take_append_of_le_length (by simp [jsonOpen]; omega)]
    interval_cases m <;> decide
  · rw [List.take_append_eq_append_take,
      List.take_of_length_le (l := jsonOpen) (by simp [jsonOpen]; omega)]
    have hlen : jsonOpen.length = 12 := by decide
    rw [hlen]
    by_cases hjs : m - 12 ≤ s.length
    · rw [List.take_append_of_le_length hjs]
      apply parsePayload_open_scan_none
      exact scanStr_none _ fun c hc => (hgood c (List.take_subset _ _ hc)).1
    · have hj3 : m - 12 = s.length + 1 := by omega
      rw [hj3, List.take_append_eq_append_take,
        List.take_of_length_le (l := s) (by omega)]
      have h1 : s.length + 1 - s.length = 1 := by omega
      rw [h1]
      have h2 : jsonClose.take 1 = ['"'] := by decide
      rw [h2]
      exact parsePayload_open_noclose s fun c hc =>
        ⟨(hgood c hc).1, (hgood c hc).2.1⟩

/-- The first fragment of a split record line never yields a record:
either the marker is cut short or the JSON body is truncated. -/
theorem parseLine_take_none (s : List Char) (hgood : goodContent s) (k : Nat)
    (h0 : 0 < k) (hk : k < s.length + 20) :
    parseLine ((contentRecordLine s).take k) = none := by
  unfold contentRecordLine
  by_cases h6 : k ≤ 5
  · rw [List.take_append_of_le_length (by simp [dataMarker]; omega)]
    interval_cases k <;> decide
  · rw [List.take_append_eq_append_take,
      List.take_of_length_le (l := dataMarker) (by simp [dataMarker]; omega)]
    have hlen : dataMarker.length = 6 := by decide
    rw [hlen]
    unfold parseLine
    rw [startsWithData_marker]
    have hdrop : (dataMarker ++ (contentJson s).take (k - 6)).drop 6 =
        (contentJson s).take (k - 6) := List.drop_left dataMarker _
    simp only [if_true]
    rw [hdrop]
    apply parsePayload_take_none s hgood
    omega

/-- The remainder of a split record line never begins with the marker,
so the decoder ignores it. -/
theorem parseLine_drop_none (s : List Char) (hgood : goodContent s) (k : Nat)
    (h0 : 0 < k) :
    parseLine ((contentRecordLine s).drop k) = none := by
  unfold parseLine
  suffices h : startsWithData ((contentRecordLine s).drop k) = false by
    rw [h]
    simp
  have hline : contentRecordLine s = (dataMarker ++ jsonOpen) ++ (s ++ jsonClose) := by
    simp [contentRecordLine, contentJson]
  rw [hline]
  by_cases h17 : k ≤ 17
  · rw [List.drop_append_eq_append_drop]
    have hk18 : k - (dataMarker ++ jsonOpen).length = 0 := by
      simp [dataMarker, jsonOpen]
      omega
    rw [hk18, List.drop_zero]
    interval_cases k <;> rfl
  · rw [List.drop_append_eq_append_drop,
      List.drop_eq_nil_of_le (by simp [dataMarker, jsonOpen]; omega), List.nil_append]
    apply startsWithData_no_colon
    intro hmem
    rcases List.mem_append.mp (List.drop_subset _ _ hmem) with h | h
    · exact (hgood _ h).2.2.2 rfl
    · exact absurd h (by decide)

/-! ## Claims -/

/-- A single-mode turn that only receives content events: the
placeholder accumulates the concatenation and stays streaming. -/
theorem sendMessage_content_only
    (st : ChatState) (text : String) (now : Nat) (cs : List String)
    (hconv : st.hasConv = true) (hs : st.isStreaming = false)
    (hmode : st.parallelMode = false)
    (hfresh : ∀ m ∈ st.messages, m.id ≠ singleAsstId now) :
    sendMessage st text now (cs.map fun c => Ev.content c none) =
      { st with
        messages := st.messages ++
          [mkUserMsg text now, { mkSinglePlaceholder now with content := concatAll cs }]
        isStreaming := true } := by
  have hfresh2 : ∀ m ∈ st.messages ++ [mkUserMsg text now], m.id ≠ singleAsstId now := by
    intro m hm
    rcases List.mem_append.mp hm with h | h
    · exact hfresh m h
    · rw [List.mem_singleton.mp h]
      exact userId_ne_singleAsstId now
  unfold sendMessage sendMessageR
  rw [hconv, hs, hmode]
  simp only [Bool.not_true, Bool.or_false, if_false]
  rw [foldl_stepSingle_content]
  unfold submitSingle
  have hsplit : st.messages ++ [mkUserMsg text now, mkSinglePlaceholder now] =
      (st.messages ++ [mkUserMsg text now]) ++ [mkSinglePlaceholder now] := by simp
  rw [hsplit, foldl_appendChunk_split (singleAsstId now) cs _ _ hfresh2 rfl]
  simp [concatAll, mkSinglePlaceholder, hconv, hmode]

/-- C1: in single mode, delivering the content events `c1..cn` to the
streaming placeholder leaves the placeholder's final content equal to
the concatenation `c1 ++ ... ++ cn` in arrival order, with every other
message unchanged. -/
theorem single_stream_content_concat
    (st : ChatState) (text : String) (now : Nat) (cs : List String)
    (hconv : st.hasConv = true) (hs : st.isStreaming = false)
    (hmode : st.parallelMode = false)
    (hfresh : ∀ m ∈ st.messages, m.id ≠ singleAsstId now) :
    sendMessage st text now (cs.map fun c => Ev.content c none) =
      { st with
        messages := st.messages ++
          [mkUserMsg text now, { mkSinglePlaceholder now with content := concatAll cs }]
        isStreaming := true } :=
  sendMessage_content_only st text now cs hconv hs hmode hfresh

/-- Witness for C1 at a concrete input. -/
theorem single_stream_content_concat_w :
    sendMessage ⟨[], false, true, ("m"), ("s"), false⟩ ("hello") 1
        ((["Hi", " there"]).map fun c => Ev.content c none) =
      { messages :=
          [mkUserMsg ("hello") 1,
            { mkSinglePlaceholder 1 with content := concatAll ["Hi", " there"] }]
        isStreaming := true, hasConv := true, modelName := ("m")
        secondModel := ("s"), parallelMode := false } :=
  single_stream_content_concat _ _ _ _ rfl rfl rfl (by simp)

/-- C2: a submission while the streaming flag is raised is rejected as
a no-op at the guard: the state is returned unchanged and no request is
opened. -/
theorem submit_rejected_while_streaming
    (st : ChatState) (text : String) (now : Nat) (evs : List Ev)
    (h : st.isStreaming = true) :
    sendMessageR st text now evs = (st, false) := by
  unfold sendMessageR
  rw [h]
  simp

/-- Witness for C2 at a concrete input. -/
theorem submit_rejected_while_streaming_w :
    sendMessageR ⟨[], true, true, ("m"), ("s"), false⟩ ("hi") 2 [] =
      (⟨[], true, true, ("m"), ("s"), false⟩, false) :=
  submit_rejected_while_streaming _ _ _ _ rfl

/-- C3: in dual mode, the model index of a content event selects the
receiving placeholder — index 0 appends to the first placeholder and
index 1 to the second, leaving the other untouched — and the scenario
`content(x,0)`, `content(y,1)`, `complete()` ends with the user message
followed by the two parallel placeholders carrying `x` and `y`, both
with streaming off. -/
theorem dual_chunk_dispatch_and_scenario
    (st : ChatState) (text : String) (now : Nat)
    (hconv : st.hasConv = true) (hs : st.isStreaming = false)
    (hmode : st.parallelMode = true)
    (hfresh : ∀ m ∈ st.messages, m.id ≠ dualAsstId1 now ∧ m.id ≠ dualAsstId2 now) :
    (∀ (stX : ChatState) (pre post : List Msg) (p1 p2 : Msg) (t : String),
      stX.messages = pre ++ p1 :: p2 :: post →
      p1.id = dualAsstId1 now → p2.id = dualAsstId2 now →
      (∀ m ∈ pre, m.id ≠ dualAsstId1 now ∧ m.id ≠ dualAsstId2 now) →
      (∀ m ∈ post, m.id ≠ dualAsstId1 now ∧ m.id ≠ dualAsstId2 now) →
      (stepDual (dualAsstId1 now) (dualAsstId2 now) stX (Ev.content t (some 0))).messages =
          pre ++ { p1 with content := p1.content ++ t } :: p2 :: post ∧
        (stepDual (dualAsstId1 now) (dualAsstId2 now) stX (Ev.content t (some 1))).messages =
          pre ++ p1 :: { p2 with content := p2.content ++ t } :: post) ∧
    sendMessage st text now
        [Ev.content ("x") (some 0), Ev.content ("y") (some 1), Ev.complete none] =
      { st with
        messages := st.messages ++
          [mkUserMsg text now,
            { mkDualPlaceholder1 st.modelName now with content := ("x"), isStreaming := false },
            { mkDualPlaceholder2 st.secondModel now with content := ("y"), isStreaming := false }]
        isStreaming := false } := by
  constructor
  · intro stX pre post p1 p2 t hmsgs hp1 hp2 hpre hpost
    constructor
    · show (stepDual _ _ stX (Ev.content t (some 0))).messages = _
      unfold stepDual dualTarget
      simp only []
      rw [hmsgs]
      exact appendChunk_pair1 _ _ _ _ _ _ (fun m hm => (hpre m hm).1)
        (fun m hm => (hpost m hm).1) hp1
        (hp2 ▸ (dualAsstId1_ne_dualAsstId2 now).symm)
    · show (stepDual _ _ stX (Ev.content t (some 1))).messages = _
      unfold stepDual dualTarget
      simp only []
      rw [hmsgs]
      exact appendChunk_pair2 _ _ _ _ _ _ (fun m hm => (hpre m hm).2)
        (fun m hm => (hpost m hm).2)
        (hp1 ▸ dualAsstId1_ne_dualAsstId2 now) hp2
  · have hu1 : (mkUserMsg text now).id ≠ dualAsstId1 now := userId_ne_dualAsstId1 now
    have hu2 : (mkUserMsg text now).id ≠ dualAsstId2 now := userId_ne_dualAsstId2 now
    have hpre : ∀ m ∈ st.messages ++ [mkUserMsg text now],
        m.id ≠ dualAsstId1 now ∧ m.id ≠ dualAsstId2 now := by
      intro m hm
      rcases List.mem_append.mp hm with h | h
      · exact hfresh m h
      · rw [List.mem_singleton.mp h]; exact ⟨hu1, hu2⟩
    have hpost : ∀ m ∈ ([] : List Msg), m.id ≠ dualAsstId1 now ∧ m.id ≠ dualAsstId2 now := by
      intro m hm; cases hm
    unfold sendMessage sendMessageR
    rw [hconv, hs, hmode]
    simp only [Bool.not_true, Bool.or_false, if_false, if_true]
    unfold submitDual
    have hshape : st.messages ++
        [mkUserMsg text now, mkDualPlaceholder1 st.modelName now,
          mkDualPlaceholder2 st.secondModel now] =
        (st.messages ++ [mkUserMsg text now]) ++
          mkDualPlaceholder1 st.modelName now :: mkDualPlaceholder2 st.secondModel now :: [] := by
      simp
    rw [List.foldl_cons, List.foldl_cons, List.foldl_cons, List.foldl_nil]
    unfold stepDual dualTarget
    simp only []
    rw [hshape]
    rw [appendChunk_pair1 _ _ _ _ _ _ (fun m hm => (hpre m hm).1) (fun m hm => (hpost m hm).1)
      rfl (dualAsstId1_ne_dualAsstId2 now).symm]
    rw [appendChunk_pair2 _ _ _ _ _ _ (fun m hm => (hpre m hm).2) (fun m hm => (hpost m hm).2)
      (dualAsstId1_ne_dualAsstId2 now) rfl]
    rw [finalizeDual_pair _ _ _ _ _ _ hpre hpost rfl rfl]
    simp [mkDualPlaceholder1, mkDualPlaceholder2, hconv, hmode]

/-- Witness for C3 at a concrete input. -/
theorem dual_chunk_dispatch_and_scenario_w :
    (∀ (stX : ChatState) (pre post : List Msg) (p1 p2 : Msg) (t : String),
      stX.messages = pre ++ p1 :: p2 :: post →
      p1.id = dualAsstId1 4 → p2.id = dualAsstId2 4 →
      (∀ m ∈ pre, m.id ≠ dualAsstId1 4 ∧ m.id ≠ dualAsstId2 4) →
      (∀ m ∈ post, m.id ≠ dualAsstId1 4 ∧ m.id ≠ dualAsstId2 4) →
      (stepDual (dualAsstId1 4) (dualAsstId2 4) stX (Ev.content t (some 0))).messages =
          pre ++ { p1 with content := p1.content ++ t } :: p2 :: post ∧
        (stepDual (dualAsstId1 4) (dualAsstId2 4) stX (Ev.content t (some 1))).messages =
          pre ++ p1 :: { p2 with content := p2.content ++ t } :: post) ∧
    sendMessage ⟨[], false, true, ("A"), ("B"), true⟩ ("hello") 4
        [Ev.content ("x") (some 0), Ev.content ("y") (some 1), Ev.complete none] =
      { messages :=
          [mkUserMsg ("hello") 4,
            { mkDualPlaceholder1 ("A") 4 with content := ("x"), isStreaming := false },
            { mkDualPlaceholder2 ("B") 4 with content := ("y"), isStreaming := false }]
        isStreaming := false, hasConv := true, modelName := ("A")
        secondModel := ("B"), parallelMode := true } :=
  dual_chunk_dispatch_and_scenario ⟨[], false, true, ("A"), ("B"), true⟩ ("hello") 4
    rfl rfl rfl (by simp)

/-- C4 counterexample: in dual mode an error event does NOT leave the
other side untouched — the `onError` handler of the parallel branch
maps over both placeholder ids, so after an error both placeholders
carry the error state; in particular the second placeholder differs
from its pre-error value. -/
theorem dual_error_counterexample :
    (stepDual (dualAsstId1 3) (dualAsstId2 3)
        (submitDual ⟨[], false, true, ("A"), ("B"), true⟩ ("hello") 3)
        (Ev.err ("boom"))).messages =
      [mkUserMsg ("hello") 3,
        { mkDualPlaceholder1 ("A") 3 with
            content := ("Error: boom"), isStreaming := false, error := true },
        { mkDualPlaceholder2 ("B") 3 with
            content := ("Error: boom"), isStreaming := false, error := true }] ∧
    ({ mkDualPlaceholder2 ("B") 3 with
        content := ("Error: boom"), isStreaming := false, error := true } : Msg) ≠
      mkDualPlaceholder2 ("B") 3 := by
  decide

/-- C4 amended: in dual mode, an error event puts BOTH placeholders
into error state (error text as content, streaming off, error flag on)
and clears the streaming flag; the error is not attributed to one side. -/
theorem dual_error_sets_both
    (st : ChatState) (text : String) (now : Nat) (e : String)
    (hconv : st.hasConv = true) (hs : st.isStreaming = false)
    (hmode : st.parallelMode = true)
    (hfresh : ∀ m ∈ st.messages, m.id ≠ dualAsstId1 now ∧ m.id ≠ dualAsstId2 now) :
    sendMessage st text now [Ev.err e] =
      { st with
        messages := st.messages ++
          [mkUserMsg text now,
            { mkDualPlaceholder1 st.modelName now with
              content := "Error: " ++ e, isStreaming := false, error := true },
            { mkDualPlaceholder2 st.secondModel now with
              content := "Error: " ++ e, isStreaming := false, error := true }]
        isStreaming := false } := by
  have hpre : ∀ m ∈ st.messages ++ [mkUserMsg text now],
      m.id ≠ dualAsstId1 now ∧ m.id ≠ dualAsstId2 now := by
    intro m hm
    rcases List.mem_append.mp hm with h | h
    · exact hfresh m h
    · rw [List.mem_singleton.mp h]
      exact ⟨userId_ne_dualAsstId1 now, userId_ne_dualAsstId2 now⟩
  have hpost : ∀ m ∈ ([] : List Msg), m.id ≠ dualAsstId1 now ∧ m.id ≠ dualAsstId2 now := by
    intro m hm; cases hm
  unfold sendMessage sendMessageR
  rw [hconv, hs, hmode]
  simp only [Bool.not_true, Bool.or_false, if_false, if_true]
  unfold submitDual
  have hshape : st.messages ++
      [mkUserMsg text now, mkDualPlaceholder1 st.modelName now,
        mkDualPlaceholder2 st.secondModel now] =
      (st.messages ++ [mkUserMsg text now]) ++
        mkDualPlaceholder1 st.modelName now :: mkDualPlaceholder2 st.secondModel now :: [] := by
    simp
  rw [List.foldl_cons, List.foldl_nil]
  unfold stepDual
  simp only []
  rw [hshape, failDual_pair _ _ _ _ _ _ _ hpre hpost rfl rfl]
  simp [mkDualPlaceholder1, mkDualPlaceholder2, hconv, hmode]

/-- Witness for the amended C4 at a concrete input. -/
theorem dual_error_sets_both_w :
    sendMessage ⟨[], false, true, ("A"), ("B"), true⟩ ("hello") 6 [Ev.err ("boom")] =
      { messages :=
          [mkUserMsg ("hello") 6,
            { mkDualPlaceholder1 ("A") 6 with
              content := "Error: " ++ ("boom"), isStreaming := false, error := true },
            { mkDualPlaceholder2 ("B") 6 with
              content := "Error: " ++ ("boom"), isStreaming := false, error := true }]
        isStreaming := false, hasConv := true, modelName := ("A")
        secondModel := ("B"), parallelMode := true } :=
  dual_error_sets_both ⟨[], false, true, ("A"), ("B"), true⟩ ("hello") 6 ("boom")
    rfl rfl rfl (by simp)

/-- C5 counterexample: the local merge does NOT always happen — when
the awaited remote persistence call fails, control lands in the
`catch` and the message list is left untouched, although the merge
would have changed it (the parallel pair is still present). -/
theorem select_merge_counterexample :
    selectResponseModel false
        { mkDualPlaceholder1 ("A") 5 with content := ("x"), isStreaming := false } 9
        ⟨[mkUserMsg ("q") 5,
          { mkDualPlaceholder1 ("A") 5 with content := ("x"), isStreaming := false },
          { mkDualPlaceholder2 ("B") 5 with content := ("y"), isStreaming := false }],
          false, true, ("A"), ("B"), true⟩ =
      ⟨[mkUserMsg ("q") 5,
        { mkDualPlaceholder1 ("A") 5 with content := ("x"), isStreaming := false },
        { mkDualPlaceholder2 ("B") 5 with content := ("y"), isStreaming := false }],
        false, true, ("A"), ("B"), true⟩ ∧
    replaceParallelLoop
        (mkFinalMsg { mkDualPlaceholder1 ("A") 5 with
            content := ("x"), isStreaming := false } 9)
        [mkUserMsg ("q") 5,
          { mkDualPlaceholder1 ("A") 5 with content := ("x"), isStreaming := false },
          { mkDualPlaceholder2 ("B") 5 with content := ("y"), isStreaming := false }] ≠
      [mkUserMsg ("q") 5,
        { mkDualPlaceholder1 ("A") 5 with content := ("x"), isStreaming := false },
        { mkDualPlaceholder2 ("B") 5 with content := ("y"), isStreaming := false }] := by
  decide

/-- C5 amended: the local merge happens exactly when the awaited remote
persistence call succeeds; a failure of the remote call is only logged
and leaves the message list unchanged (so nothing is rolled back, but
the merge is also never performed). -/
theorem select_merge_iff_remote
    (remoteOk : Bool) (sel : Msg) (now : Nat) (st : ChatState) :
    (remoteOk = false → selectResponseModel remoteOk sel now st = st) ∧
    (remoteOk = true → selectResponseModel remoteOk sel now st =
      { st with messages := replaceParallelLoop (mkFinalMsg sel now) st.messages }) := by
  constructor
  · intro h
    simp [selectResponseModel, h]
  · intro h
    simp [selectResponseModel, h]

/-- Witness for the amended C5 at a concrete input. -/
theorem select_merge_iff_remote_w :
    selectResponseModel false (mkUserMsg ("a") 0) 1 ⟨[], false, true, ("m"), ("s"), false⟩ =
      ⟨[], false, true, ("m"), ("s"), false⟩ :=
  (select_merge_iff_remote false (mkUserMsg ("a") 0) 1
    ⟨[], false, true, ("m"), ("s"), false⟩).1 rfl

/-- C6: a selection attempted while either parallel placeholder is
still streaming is rejected with no mutation — the Choose button's
guard short-circuits before `selectResponse` runs, so the state is
returned unchanged. -/
theorem select_rejected_while_streaming
    (m1 m2 : Msg) (chooseFirst remoteOk : Bool) (now : Nat) (st : ChatState)
    (h : m1.isStreaming = true ∨ m2.isStreaming = true) :
    attemptSelect m1 m2 chooseFirst remoteOk now st = st := by
  unfold attemptSelect
  rcases h with h | h
  · simp [h]
  · simp [h]

/-- Witness for C6 at a concrete input. -/
theorem select_rejected_while_streaming_w :
    attemptSelect (mkDualPlaceholder1 ("A") 2) (mkDualPlaceholder2 ("B") 2) true true 8
        ⟨[], true, true, ("A"), ("B"), true⟩ =
      ⟨[], true, true, ("A"), ("B"), true⟩ :=
  select_rejected_while_streaming _ _ _ _ _ _ (Or.inl rfl)

/-- C7: on a sequence holding exactly one adjacent parallel assistant
pair, the merge loop removes exactly that pair and inserts the one
replacement at its position: the length drops by exactly one, every
other message is unchanged in value and relative order, and the
replacement carries the chosen side's content and model with
parallel off, streaming off and a fresh local identifier. -/
theorem replace_group_atomic
    (sel : Msg) (now : Nat) (msgs pre post : List Msg) (p1 p2 : Msg)
    (hmsgs : msgs = pre ++ p1 :: p2 :: post)
    (h1 : p1.parallel = true ∧ p1.role = Role.assistant)
    (h2 : p2.parallel = true ∧ p2.role = Role.assistant)
    (hpre : ∀ m ∈ pre, ¬(m.parallel = true ∧ m.role = Role.assistant))
    (hpost : ∀ m ∈ post, ¬(m.parallel = true ∧ m.role = Role.assistant))
    (hfresh : ∀ m ∈ msgs, m.id ≠ finalId now) :
    replaceParallelLoop (mkFinalMsg sel now) msgs = pre ++ mkFinalMsg sel now :: post ∧
    (replaceParallelLoop (mkFinalMsg sel now) msgs).length + 1 = msgs.length ∧
    (mkFinalMsg sel now).content = sel.content ∧
    (mkFinalMsg sel now).model = sel.model ∧
    (mkFinalMsg sel now).parallel = false ∧
    (mkFinalMsg sel now).isStreaming = false ∧
    (mkFinalMsg sel now).id = finalId now ∧
    (∀ m ∈ pre ++ post, (mkFinalMsg sel now).id ≠ m.id) := by
  subst hmsgs
  have hmain : replaceParallelLoop (mkFinalMsg sel now) (pre ++ p1 :: p2 :: post) =
      pre ++ mkFinalMsg sel now :: post := by
    rw [replaceParallelLoop_skip _ pre _ hpre, replaceParallelLoop_pair _ _ _ _ h1 h2,
      replaceParallelLoop_clean _ post hpost]
  refine ⟨hmain, ?_, rfl, rfl, rfl, rfl, rfl, ?_⟩
  · rw [hmain]
    simp [List.length_append]
    omega
  · intro m hm
    have hmem : m ∈ pre ++ p1 :: p2 :: post := by
      rcases List.mem_append.mp hm with h | h
      · exact List.mem_append.mpr (Or.inl h)
      · exact List.mem_append.mpr (Or.inr (by simp [h]))
    intro hh
    exact hfresh m hmem (by rw [← hh]; rfl)

/-- Witness for C7 at a concrete input. -/
theorem replace_group_atomic_w :
    replaceParallelLoop
        (mkFinalMsg { mkDualPlaceholder1 ("A") 5 with
            content := ("x"), isStreaming := false } 9)
        ([mkUserMsg ("q") 5] ++
          { mkDualPlaceholder1 ("A") 5 with content := ("x"), isStreaming := false } ::
            { mkDualPlaceholder2 ("B") 5 with content := ("y"), isStreaming := false } :: []) =
      [mkUserMsg ("q") 5] ++
        mkFinalMsg { mkDualPlaceholder1 ("A") 5 with
            content := ("x"), isStreaming := false } 9 :: [] ∧
    (replaceParallelLoop
        (mkFinalMsg { mkDualPlaceholder1 ("A") 5 with
            content := ("x"), isStreaming := false } 9)
        ([mkUserMsg ("q") 5] ++
          { mkDualPlaceholder1 ("A") 5 with content := ("x"), isStreaming := false } ::
            { mkDualPlaceholder2 ("B") 5 with content := ("y"), isStreaming := false } :: [])).length + 1 =
      ([mkUserMsg ("q") 5] ++
        { mkDualPlaceholder1 ("A") 5 with content := ("x"), isStreaming := false } ::
          { mkDualPlaceholder2 ("B") 5 with content := ("y"), isStreaming := false } :: []).length ∧
    (mkFinalMsg { mkDualPlaceholder1 ("A") 5 with
        content := ("x"), isStreaming := false } 9).content =
      ({ mkDualPlaceholder1 ("A") 5 with content := ("x"), isStreaming := false } : Msg).content ∧
    (mkFinalMsg { mkDualPlaceholder1 ("A") 5 with
        content := ("x"), isStreaming := false } 9).model =
      ({ mkDualPlaceholder1 ("A") 5 with content := ("x"), isStreaming := false } : Msg).model ∧
    (mkFinalMsg { mkDualPlaceholder1 ("A") 5 with
        content := ("x"), isStreaming := false } 9).parallel = false ∧
    (mkFinalMsg { mkDualPlaceholder1 ("A") 5 with
        content := ("x"), isStreaming := false } 9).isStreaming = false ∧
    (mkFinalMsg { mkDualPlaceholder1 ("A") 5 with
        content := ("x"), isStreaming := false } 9).id = finalId 9 ∧
    (∀ m ∈ [mkUserMsg ("q") 5] ++ ([] : List Msg),
      (mkFinalMsg { mkDualPlaceholder1 ("A") 5 with
          content := ("x"), isStreaming := false } 9).id ≠ m.id) :=
  replace_group_atomic
    { mkDualPlaceholder1 ("A") 5 with content := ("x"), isStreaming := false } 9
    _ [mkUserMsg ("q") 5] []
    { mkDualPlaceholder1 ("A") 5 with content := ("x"), isStreaming := false }
    { mkDualPlaceholder2 ("B") 5 with content := ("y"), isStreaming := false }
    rfl (by decide) (by decide) (by decide) (by decide) (by decide)

/-- C9: starting a turn from an idle message list, StreamingFlag equals
"some assistant message is streaming" after the submission transition
and after every delivered event, in both modes; and the selection
transition preserves the invariant. -/
theorem streaming_flag_invariant
    (st : ChatState) (text : String) (now : Nat) (evs : List Ev)
    (hidle : ∀ m ∈ st.messages, m.isStreaming = false) :
    (∀ s ∈ sendTrace st text now evs, streamInv s) ∧
    (∀ (m1 m2 : Msg) (chooseFirst remoteOk : Bool) (now2 : Nat) (st2 : ChatState),
      streamInv st2 → st2.isStreaming = false →
      streamInv (attemptSelect m1 m2 chooseFirst remoteOk now2 st2)) := by
  constructor
  · unfold sendTrace
    by_cases hg : (!st.hasConv || st.isStreaming) = true
    · rw [if_pos hg]
      intro s hs
      simp at hs
    · rw [if_neg hg]
      by_cases hp : st.parallelMode = true
      · rw [if_pos hp]
        intro s hs
        exact (statesFrom_inv _ _ (stepDual_pres (dualAsstId1 now) (dualAsstId2 now)) evs _
          (submitDual_estab st text now hidle) s hs).1
      · rw [if_neg hp]
        intro s hs
        exact (statesFrom_inv _ _ (stepSingle_pres (singleAsstId now)) evs _
          (submitSingle_estab st text now hidle) s hs).1
  · intro m1 m2 chooseFirst remoteOk now2 st2 hinv hflag
    unfold attemptSelect
    by_cases hgd : (m1.isStreaming || m2.isStreaming) = true
    · rw [if_pos hgd]
      exact hinv
    · rw [if_neg hgd]
      unfold selectResponseModel
      cases remoteOk with
      | false => exact hinv
      | true =>
        have hall : anyAsstStreaming st2.messages = false := by
          rw [← hinv, hflag]
        show st2.isStreaming =
          anyAsstStreaming (replaceParallelLoop
            (mkFinalMsg (if chooseFirst then m1 else m2) now2) st2.messages)
        rw [hflag]
        have hz : anyAsstStreaming (replaceParallelLoop
            (mkFinalMsg (if chooseFirst then m1 else m2) now2) st2.messages) = false := by
          unfold anyAsstStreaming
          rw [List.any_eq_false]
          intro m hm
          rcases replaceParallelLoop_mem _ _ _ hm with h | h
          · unfold anyAsstStreaming at hall
            rw [List.any_eq_false] at hall
            exact hall m h
          · rw [h]
            simp [mkFinalMsg]
        rw [hz]

/-- C8 counterexample: a transport close with no terminal record does
NOT put the turn into a failed state — the read loop just ends, no
callback fires, and the placeholder is left streaming with no error
while StreamingFlag stays raised. -/
theorem close_without_terminal_counterexample :
    sendMessageWire ⟨[], false, true, ("A"), ("B"), false⟩ ("hello") 3
        [contentRecordLine ['H', 'i'] ++ ['\n']] =
      { messages :=
          [mkUserMsg ("hello") 3, { mkSinglePlaceholder 3 with content := ("Hi") }]
        isStreaming := true, hasConv := true, modelName := ("A")
        secondModel := ("B"), parallelMode := false } ∧
    ({ mkSinglePlaceholder 3 with content := ("Hi") } : Msg).isStreaming = true ∧
    ({ mkSinglePlaceholder 3 with content := ("Hi") } : Msg).error = false := by
  decide

/-- C8 amended: when the fragments of the response body contain no
terminal record (`done` or truthy `error`), the read loop exits without
invoking any terminal callback: the placeholder keeps its accumulated
content with streaming still true and no error, and StreamingFlag stays
raised.  Only a thrown transport exception reaches the error path. -/
theorem close_without_terminal_keeps_streaming
    (st : ChatState) (text : String) (now : Nat) (frags : List (List Char))
    (hconv : st.hasConv = true) (hs : st.isStreaming = false)
    (hmode : st.parallelMode = false)
    (hfresh : ∀ m ∈ st.messages, m.id ≠ singleAsstId now)
    (hterm : (eventsOfFragments frags).2 = none) :
    sendMessageWire st text now frags =
      { st with
        messages := st.messages ++
          [mkUserMsg text now,
            { mkSinglePlaceholder now with
              content := concatAll ((eventsOfFragments frags).1.map fun c => String.mk c) }]
        isStreaming := true } := by
  unfold sendMessageWire wireEvents
  rw [hterm]
  have hcomp : ((eventsOfFragments frags).1.map fun c => Ev.content (String.mk c) none) =
      (((eventsOfFragments frags).1.map fun c => String.mk c).map fun c =>
        Ev.content c none) := by
    rw [List.map_map]
    rfl
  rw [show evOfTerm none = [] from rfl, List.append_nil, hcomp]
  exact sendMessage_content_only st text now _ hconv hs hmode hfresh

/-- Witness for the amended C8 at a concrete input. -/
theorem close_without_terminal_keeps_streaming_w :
    sendMessageWire ⟨[], false, true, ("A"), ("B"), false⟩ ("hey") 7
        [contentRecordLine ['o', 'k'] ++ ['\n']] =
      { messages :=
          [mkUserMsg ("hey") 7,
            { mkSinglePlaceholder 7 with
              content := concatAll
                ((eventsOfFragments [contentRecordLine ['o', 'k'] ++ ['\n']]).1.map
                  fun c => String.mk c) }]
        isStreaming := true, hasConv := true, modelName := ("A")
        secondModel := ("B"), parallelMode := false } :=
  close_without_terminal_keeps_streaming ⟨[], false, true, ("A"), ("B"), false⟩ ("hey") 7
    [contentRecordLine ['o', 'k'] ++ ['\n']] rfl rfl rfl (by simp) (by decide)

/-- C10: the decoder parses each transport fragment independently with
no buffering across fragments, so a record line split anywhere across
two fragments yields no event at all: the truncated front never parses
(or never carries the full marker) and the remainder never begins with
the marker. -/
theorem split_record_drops_payload
    (s : List Char) (k : Nat) (hgood : goodContent s)
    (h0 : 0 < k) (hk : k < (contentRecordLine s).length) :
    eventsOfFragments
      [(contentRecordLine s).take k, (contentRecordLine s).drop k ++ ['\n']] =
      ([], none) := by
  have hnl := noNl_contentRecordLine s hgood
  have hk2 : k < s.length + 20 := by
    rw [contentRecordLine_length] at hk
    exact hk
  have hr1 : recordsOfFragment ((contentRecordLine s).take k) = [] := by
    unfold recordsOfFragment
    rw [splitLinesCh_noNl _ fun hm => hnl (List.take_subset _ _ hm)]
    simp [parseLine_take_none s hgood k h0 hk2]
  have hr2 : recordsOfFragment ((contentRecordLine s).drop k ++ ['\n']) = [] := by
    unfold recordsOfFragment
    rw [splitLinesCh_append_nl _ fun hm => hnl (List.drop_subset _ _ hm)]
    have hp := parseLine_drop_none s hgood k h0
    have hpe : parseLine ([] : List Char) = none := by decide
    simp [List.filterMap_cons, hp, hpe]
  unfold eventsOfFragments
  simp [hr1, hr2, consume]

/-- Witness for C10 at a concrete input. -/
theorem split_record_drops_payload_w :
    goodContent ['H', 'i'] ∧
    eventsOfFragments
      [(contentRecordLine ['H', 'i']).take 10,
        (contentRecordLine ['H', 'i']).drop 10 ++ ['\n']] = ([], none) :=
  ⟨by decide, split_record_drops_payload ['H', 'i'] 10 (by decide) (by decide) (by decide)⟩

/-- Witness for C9 at a concrete input. -/
theorem streaming_flag_invariant_w :
    (∀ s ∈ sendTrace ⟨[], false, true, ("A"), ("B"), false⟩ ("hello") 1
        [Ev.content ("Hi") none, Ev.complete (some ("srv-1"))], streamInv s) ∧
    (∀ (m1 m2 : Msg) (chooseFirst remoteOk : Bool) (now2 : Nat) (st2 : ChatState),
      streamInv st2 → st2.isStreaming = false →
      streamInv (attemptSelect m1 m2 chooseFirst remoteOk now2 st2)) :=
  streaming_flag_invariant ⟨[], false, true, ("A"), ("B"), false⟩ ("hello") 1
    [Ev.content ("Hi") none, Ev.complete (some ("srv-1"))] (by simp)

end TwiGPT
